import Mathlib

/-!
Shallow embedding of the CombinedGameEvents component: data model, the
chunked historical log scan, the merge of the two contract event lists, and
the live-subscription handler, with the state-setter calls of the effect
bodies made explicit.
-/

namespace Broflip

/-- Constant MAX_RESULTS from the source: the cap on the stored list. -/
def MAX_RESULTS : Nat := 12

/-- Constant TOTAL_BLOCKS_TO_CHECK from the source: size of the scanned window. -/
def TOTAL_BLOCKS_TO_CHECK : Int := 2000

/-- Constant MAX_CHUNK_SIZE from the source: block span of one getLogs query. -/
def MAX_CHUNK_SIZE : Int := 450

/-- Game type tag: the two fixed variants of the GameEvent interface. -/
inductive GameType where
  | dice : GameType
  | coinflip : GameType
deriving DecidableEq, Repr

/-- One decoded game event record (interface GameEvent in the source). -/
structure GameEvent where
  blockNumber : Int
  transactionHash : String
  player : String
  amount : Nat
  choice : Int
  outcome : Int
  won : Bool
  gameType : GameType
  timestamp : Int
deriving DecidableEq, Repr

/-- One raw log as delivered by getLogs or the subscription: the block number and
the possibly-missing transaction hash field; topics and data are abstracted into
the parse oracle below. -/
structure RawLog where
  blockNumber : Int
  transactionHash : Option String
deriving DecidableEq, Repr

/-- The decoded arguments of one Roll event, as produced by Interface.parseLog. -/
structure ParsedRoll where
  player : String
  amount : Nat
  choice : Int
  outcome : Int
  won : Bool
deriving DecidableEq, Repr

/-- The part of a block returned by getBlock that the component reads. -/
structure Block where
  timestamp : Int
deriving DecidableEq, Repr

/-- JS expression log.transactionHash || quoted-unknown: a missing or empty hash
falls back to the string unknown. -/
def txHashOrUnknown : Option String → String
  | none => "unknown"
  | some s => if s = "" then "unknown" else s

/-- ASCII lowercase of one character. -/
def charLower (c : Char) : Char :=
  if 65 ≤ c.toNat ∧ c.toNat ≤ 90 then Char.ofNat (c.toNat + 32) else c

/-- Model of the JS toLowerCase call as applied to hex account addresses:
lowercase every ASCII letter of the string. -/
def strLower (s : String) : String := ⟨s.data.map charLower⟩

/-- Construction of a GameEvent from a raw log, its parsed Roll arguments and the
looked-up block (source lines 92 to 102, repeated at lines 145 to 155); the
player address is lowercased before being stored. -/
def mkGameEvent (gameType : GameType) (log : RawLog) (p : ParsedRoll) (b : Block) :
    GameEvent :=
  { blockNumber := log.blockNumber
    transactionHash := txHashOrUnknown log.transactionHash
    player := strLower p.player
    amount := p.amount
    choice := p.choice
    outcome := p.outcome
    won := p.won
    gameType := gameType
    timestamp := b.timestamp }

/-- JS Array sort with comparator taking b.blockNumber - a.blockNumber: a stable
sort putting larger block numbers first. -/
def sortByBlockDesc (l : List GameEvent) : List GameEvent :=
  l.mergeSort (fun a b => decide (b.blockNumber ≤ a.blockNumber))

/-- Historical merge (source lines 117 to 119): concatenate the two contract
event lists, sort descending by block number, truncate to MAX_RESULTS. -/
def combineEvents (diceEvents coinflipEvents : List GameEvent) : List GameEvent :=
  (sortByBlockDesc (diceEvents ++ coinflipEvents)).take MAX_RESULTS

/-- State updater passed to setEvents by the subscription handler (source lines
157 to 160): keep prev unchanged when some record already carries the incoming
transaction hash, otherwise cons the new event, re-sort and truncate. -/
def updateEvents (newEvent : GameEvent) (prev : List GameEvent) : List GameEvent :=
  if prev.any (fun e => decide (e.transactionHash = newEvent.transactionHash)) then prev
  else (sortByBlockDesc (newEvent :: prev)).take MAX_RESULTS

/-- Subscription handler (source lines 138 to 163): decode the log, drop it when
the lowercased player differs from the lowercased connected account, look up its
block, and when still mounted apply the state updater; every failure path leaves
the list unchanged. -/
def handleLog (parse : RawLog → Option ParsedRoll) (getBlock : Int → Option Block)
    (currentAccount : String) (isMounted : Bool) (gameType : GameType)
    (log : RawLog) (prev : List GameEvent) : List GameEvent :=
  match parse log with
  | none => prev
  | some p =>
    if strLower p.player = strLower currentAccount then
      match getBlock log.blockNumber with
      | none => prev
      | some b =>
        if isMounted then updateEvents (mkGameEvent gameType log p b) prev
        else prev
    else prev

/-- Start of the scanned block window (source line 61). -/
def startBlockOf (latestBlock : Int) : Int :=
  max (latestBlock - TOTAL_BLOCKS_TO_CHECK) 0

/-- Number of getLogs chunks (source lines 62 to 63): ceiling of the
nonnegative window size over MAX_CHUNK_SIZE = 450. -/
def chunksNeeded (latestBlock : Int) : Nat :=
  ((latestBlock - startBlockOf latestBlock).toNat + 449) / 450

/-- The block range of the getLogs query of loop iteration i (source lines 67 to
70): fromBlock is chunkStart clamped to the window start, toBlock is chunkEnd. -/
def chunkRange (latestBlock : Int) (i : Nat) : Int × Int :=
  (max (latestBlock - i * MAX_CHUNK_SIZE - MAX_CHUNK_SIZE) (startBlockOf latestBlock),
   latestBlock - i * MAX_CHUNK_SIZE)

/-- All getLogs query ranges issued by one historical scan, in loop order. -/
def queryRanges (latestBlock : Int) : List (Int × Int) :=
  (List.range (chunksNeeded latestBlock)).map (chunkRange latestBlock)

/-- Accumulated logs of the chunk loop (source lines 64 to 83): each chunk
getLogs result is appended in order; a chunk whose getLogs call fails contributes
nothing and the loop continues. The isMounted flag of the loop guard is modelled
as constant across the scan. -/
def allLogsOf (getLogs : Int × Int → Except Unit (List RawLog))
    (isMounted : Bool) (latestBlock : Int) : List RawLog :=
  if isMounted then
    ((List.range (chunksNeeded latestBlock)).map (fun i =>
      match getLogs (chunkRange latestBlock i) with
      | Except.ok logs => logs
      | Except.error _ => [])).flatten
  else []

/-- Decoding of one raw log into a GameEvent (body of the per-log loop, source
lines 86 to 103): none when parsing throws or the block lookup returns null. -/
def decodeLog (parse : RawLog → Option ParsedRoll) (getBlock : Int → Option Block)
    (gameType : GameType) (log : RawLog) : Option GameEvent :=
  match parse log with
  | none => none
  | some p =>
    match getBlock log.blockNumber with
    | none => none
    | some b => some (mkGameEvent gameType log p b)

/-- The per-log loop of fetchEventsForContract (source lines 85 to 104): decode
each accumulated log, dropping exactly the ones whose decode fails. -/
def parseAllLogs (parse : RawLog → Option ParsedRoll) (getBlock : Int → Option Block)
    (gameType : GameType) (logs : List RawLog) : List GameEvent :=
  logs.filterMap (decodeLog parse getBlock gameType)

/-- Result of fetchEventsForContract (source lines 59 to 106) for one contract,
with getLogs, parseLog and getBlock as oracles. -/
def fetchEventsForContract (getLogs : Int × Int → Except Unit (List RawLog))
    (parse : RawLog → Option ParsedRoll) (getBlock : Int → Option Block)
    (isMounted : Bool) (latestBlock : Int) (gameType : GameType) : List GameEvent :=
  parseAllLogs parse getBlock gameType (allLogsOf getLogs isMounted latestBlock)

/-- Reference behavior of a getLogs call over an abstract per-contract chain:
return every log whose block number lies in the inclusive query range. -/
def getLogsSpec (chain : List RawLog) (r : Int × Int) : Except Unit (List RawLog) :=
  Except.ok (chain.filter (fun log =>
    decide (r.1 ≤ log.blockNumber) && decide (log.blockNumber ≤ r.2)))

/-- One call to a React state setter of the component. -/
inductive StateUpdate where
  | setEvents : List GameEvent → StateUpdate
  | setLoading : Bool → StateUpdate
  | setError : Option String → StateUpdate
deriving DecidableEq, Repr

/-- The generic message of the top-level fetch failure (source line 122). -/
def failMsg : String := "Failed to fetch events"

/-- State-setter calls made by the historical-fetch effect body (source lines 108
to 126), each paired with the value of the isMounted flag at the moment the call
runs. The flag is true during the synchronous start of the body;
mountedAfterAwait is its value once the awaited joined fetch settles, the only
suspension point before the remaining setters. On success the setEvents call is
guarded by the flag, after which the finally clause still calls setLoading; on
failure the catch and finally clauses run their setters unconditionally. -/
def historicalEffectUpdates (mountedAfterAwait : Bool)
    (result : Except Unit (List GameEvent × List GameEvent)) :
    List (Bool × StateUpdate) :=
  [(true, StateUpdate.setLoading true), (true, StateUpdate.setError none)] ++
  (match result with
   | Except.ok (diceEvents, coinflipEvents) =>
     (if mountedAfterAwait then
        [(mountedAfterAwait,
          StateUpdate.setEvents (combineEvents diceEvents coinflipEvents))]
      else []) ++ [(mountedAfterAwait, StateUpdate.setLoading false)]
   | Except.error _ =>
     [(mountedAfterAwait, StateUpdate.setError (some failMsg)),
      (mountedAfterAwait, StateUpdate.setLoading false)])

/-- JS truthiness of the optional account address: undefined or empty is falsy. -/
def accountMissing : Option String → Bool
  | none => true
  | some s => s == ""

/-- Guard shared by both effects (source lines 49 and 133): fires when the wallet
is not connected or there is no usable account. -/
def effectGuardSkips (isConnected : Bool) (currentAccount : Option String) : Bool :=
  !isConnected || accountMissing currentAccount

/-- Behavior of the historical effect at mount (source lines 48 to 53): when the
guard fires it sets events to empty and loading to false and starts no fetch;
otherwise it performs no immediate update and starts the fetch. The pair holds
the immediate setter calls and whether the fetch is started. -/
def historicalEffectInit (isConnected : Bool) (currentAccount : Option String) :
    List StateUpdate × Bool :=
  if effectGuardSkips isConnected currentAccount then
    ([StateUpdate.setEvents [], StateUpdate.setLoading false], false)
  else ([], true)

/-- Whether the subscription effect opens the two log subscriptions (source lines
132 to 133): it returns at once when the guard fires. -/
def subscriptionOpens (isConnected : Bool) (currentAccount : Option String) : Bool :=
  !(effectGuardSkips isConnected currentAccount)

/-- The stored-list invariant of the claims: at most MAX_RESULTS records and every
adjacent pair ordered by non-increasing block number. -/
def EventsInv (l : List GameEvent) : Prop :=
  l.length ≤ MAX_RESULTS ∧ l.Chain' (fun a b => b.blockNumber ≤ a.blockNumber)

/-- No two records of the list share a transaction hash. -/
def DedupByHash (l : List GameEvent) : Prop :=
  l.Pairwise (fun a b => a.transactionHash ≠ b.transactionHash)

instance : DecidablePred EventsInv := fun l => by
  unfold EventsInv; infer_instance

instance : DecidablePred DedupByHash := fun l => by
  unfold DedupByHash; infer_instance

/-- Sample record on block 100. -/
def evA : GameEvent :=
  ⟨100, "0xa", "0xp1", 1, 0, 0, true, GameType.dice, 5⟩

/-- Sample record sharing the transaction hash of evA. -/
def evAdup : GameEvent :=
  ⟨101, "0xa", "0xp2", 2, 1, 1, false, GameType.coinflip, 6⟩

/-- Sample record on block 200 with a fresh hash. -/
def evB : GameEvent :=
  ⟨200, "0xb", "0xp2", 3, 0, 1, false, GameType.coinflip, 9⟩

/-- Abstract chain holding a single log that sits on the boundary block 1550
shared by the first two scan chunks when the latest block is 2000. -/
def dupChain : List RawLog := [⟨1550, some "0xdup"⟩]

/-- Parse oracle that decodes every log to the same Roll arguments. -/
def constParse : RawLog → Option ParsedRoll :=
  fun _ => some ⟨"0xP", 1, 0, 0, true⟩

/-- Parse oracle that fails exactly on logs of block 99. -/
def failingParse : RawLog → Option ParsedRoll :=
  fun log => if log.blockNumber = 99 then none else some ⟨"0xP", 1, 0, 0, true⟩

/-- Block oracle that resolves every block with timestamp 7. -/
def constGetBlock : Int → Option Block := fun _ => some ⟨7⟩

/-- Sample raw log for the subscription path. -/
def rawLogA : RawLog := ⟨300, some "0xc"⟩

/-- Sample raw log on the failing block of failingParse. -/
def rawLogBad : RawLog := ⟨99, some "0xbad"⟩

/-- The event decoded from the single log of dupChain by constParse and
constGetBlock in a dice scan. -/
def dupEv : GameEvent :=
  ⟨1550, "0xdup", "0xp", 1, 0, 0, true, GameType.dice, 7⟩

theorem sortByBlockDesc_perm (l : List GameEvent) : (sortByBlockDesc l).Perm l :=
  List.mergeSort_perm l _

theorem sortByBlockDesc_pairwise (l : List GameEvent) :
    (sortByBlockDesc l).Pairwise (fun a b => b.blockNumber ≤ a.blockNumber) := by
  have h := @List.sorted_mergeSort GameEvent
    (fun a b : GameEvent => decide (b.blockNumber ≤ a.blockNumber))
    (fun a b c hab hbc => by
      simp only [decide_eq_true_eq] at hab hbc ⊢
      omega)
    (fun a b => by
      simp only [Bool.or_eq_true, decide_eq_true_eq]
      omega)
    l
  simpa using h

theorem eventsInv_take_sort (l : List GameEvent) :
    EventsInv ((sortByBlockDesc l).take MAX_RESULTS) := by
  constructor
  · rw [List.length_take]
    exact Nat.min_le_left _ _
  · exact (List.Pairwise.sublist (List.take_sublist _ _)
      (sortByBlockDesc_pairwise l)).chain'

/-- C1: the historical merge always yields a list of at most MAX_RESULTS records
with adjacent records ordered by non-increasing block number, and the
subscription state updater preserves this bound and ordering. -/
theorem C1_capped_ordered :
    (∀ d c : List GameEvent, EventsInv (combineEvents d c)) ∧
    (∀ e prev, EventsInv prev → EventsInv (updateEvents e prev)) := by
  refine ⟨fun d c => eventsInv_take_sort _, fun e prev hprev => ?_⟩
  unfold updateEvents
  split
  · exact hprev
  · exact eventsInv_take_sort _

/-- C1 witness: the preservation part applied to the record evB and the empty
list. -/
theorem C1_capped_ordered_witness :
    EventsInv ([] : List GameEvent) ∧ EventsInv (updateEvents evB []) :=
  ⟨by decide, C1_capped_ordered.2 evB [] (by decide)⟩

/-- C3: the historical result equals the concatenation of the dice and coinflip
event lists, sorted in descending block-number order, truncated to MAX_RESULTS
records. -/
theorem C3_combine_is_sorted_truncation (d c : List GameEvent) :
    ∃ l : List GameEvent, l.Perm (d ++ c) ∧
      l.Pairwise (fun a b => b.blockNumber ≤ a.blockNumber) ∧
      combineEvents d c = l.take MAX_RESULTS :=
  ⟨sortByBlockDesc (d ++ c), sortByBlockDesc_perm _, sortByBlockDesc_pairwise _, rfl⟩

/-- C4: when some record of prev carries the transaction hash of the incoming
event the updater returns prev unchanged; otherwise it returns the new event
together with prev, sorted descending by block number and truncated to
MAX_RESULTS records. -/
theorem C4_update_spec (e : GameEvent) (prev : List GameEvent) :
    ((∃ x ∈ prev, x.transactionHash = e.transactionHash) →
      updateEvents e prev = prev) ∧
    ((∀ x ∈ prev, x.transactionHash ≠ e.transactionHash) →
      ∃ l : List GameEvent, l.Perm (e :: prev) ∧
        l.Pairwise (fun a b => b.blockNumber ≤ a.blockNumber) ∧
        updateEvents e prev = l.take MAX_RESULTS) := by
  constructor
  · intro hx
    have hany : prev.any (fun x => decide (x.transactionHash = e.transactionHash)) = true := by
      rw [List.any_eq_true]
      obtain ⟨x, hmem, hx⟩ := hx
      exact ⟨x, hmem, by simpa using hx⟩
    unfold updateEvents
    rw [if_pos hany]
  · intro hx
    have hany : prev.any (fun x => decide (x.transactionHash = e.transactionHash)) = false := by
      rw [List.any_eq_false]
      intro x hmem
      simpa using hx x hmem
    refine ⟨sortByBlockDesc (e :: prev), sortByBlockDesc_perm _,
      sortByBlockDesc_pairwise _, ?_⟩
    unfold updateEvents
    rw [if_neg (by simp [hany])]

/-- C4 witness: both branches at concrete inputs: evAdup shares the hash of evA,
evB carries a fresh hash. -/
theorem C4_update_spec_witness :
    updateEvents evAdup [evA] = [evA] ∧
    ∃ l : List GameEvent, l.Perm (evB :: [evA]) ∧
      l.Pairwise (fun a b => b.blockNumber ≤ a.blockNumber) ∧
      updateEvents evB [evA] = l.take MAX_RESULTS :=
  ⟨(C4_update_spec evAdup [evA]).1 (by decide),
   (C4_update_spec evB [evA]).2 (by decide)⟩

/-- C2 counterexample: a single on-chain log on block 1550 sits on the boundary
shared by the first two scan chunk ranges at latest block 2000, is fetched
twice, and the historical merge keeps both copies, so the merged list holds two
records with the same transaction hash. -/
theorem C2_dedup_counterexample :
    ¬ DedupByHash (combineEvents
      (fetchEventsForContract (getLogsSpec dupChain) constParse constGetBlock
        true 2000 GameType.dice) []) := by
  intro h
  have hF : fetchEventsForContract (getLogsSpec dupChain) constParse constGetBlock
      true 2000 GameType.dice = [dupEv, dupEv] := by decide
  rw [hF] at h
  unfold DedupByHash combineEvents at h
  have hlen : (sortByBlockDesc ([dupEv, dupEv] ++ [])).length = 2 := by
    unfold sortByBlockDesc
    rw [List.length_mergeSort]
    rfl
  rw [List.take_of_length_le (by rw [hlen]; norm_num [MAX_RESULTS])] at h
  have hperm := sortByBlockDesc_perm ([dupEv, dupEv] ++ [])
  have hdup := (List.Perm.pairwise_iff (fun hxy => Ne.symm hxy) hperm).mp h
  simp at hdup

/-- C2 amended: deduplication by transaction hash is preserved by every
subscription insertion, but the historical merge applies no deduplication, so
duplicate records fetched from overlapping chunk ranges survive it. -/
theorem C2_update_preserves_dedup (e : GameEvent) (prev : List GameEvent)
    (h : DedupByHash prev) : DedupByHash (updateEvents e prev) := by
  unfold DedupByHash at h ⊢
  unfold updateEvents
  split
  · exact h
  · next hany =>
    have hmem : ∀ x ∈ prev, e.transactionHash ≠ x.transactionHash := by
      intro x hx heq
      exact hany (List.any_eq_true.mpr ⟨x, hx, by simp [heq.symm]⟩)
    have hcons : (e :: prev).Pairwise
        (fun a b => a.transactionHash ≠ b.transactionHash) :=
      List.Pairwise.cons hmem h
    have hperm := sortByBlockDesc_perm (e :: prev)
    have hsorted := (List.Perm.pairwise_iff (fun hxy => Ne.symm hxy) hperm).mpr hcons
    exact List.Pairwise.sublist (List.take_sublist _ _) hsorted

/-- C2 witness: the preservation part applied to evB and the singleton evA. -/
theorem C2_update_preserves_dedup_witness :
    DedupByHash (updateEvents evB [evA]) :=
  C2_update_preserves_dedup evB [evA] (by decide)

theorem handleLog_changes_account (parse : RawLog → Option ParsedRoll)
    (getBlock : Int → Option Block) (account : String) (m : Bool) (gt : GameType)
    (log : RawLog) (prev : List GameEvent)
    (h : handleLog parse getBlock account m gt log prev ≠ prev) :
    ∃ p, parse log = some p ∧ strLower p.player = strLower account := by
  unfold handleLog at h
  cases hp : parse log with
  | none => rw [hp] at h; exact absurd rfl h
  | some p =>
    rw [hp] at h
    by_cases hacc : strLower p.player = strLower account
    · exact ⟨p, rfl, hacc⟩
    · exact absurd (if_neg hacc) h

/-- C5: a subscribed log whose decoded player address differs after lowercasing
from the connected account leaves the events list unchanged, and any log that
does change the list decodes to a player address equal to the connected account
after lowercasing both. -/
theorem C5_account_filter (parse : RawLog → Option ParsedRoll)
    (getBlock : Int → Option Block) (account : String) (m : Bool) (gt : GameType)
    (log : RawLog) (prev : List GameEvent) :
    (∀ p, parse log = some p → strLower p.player ≠ strLower account →
      handleLog parse getBlock account m gt log prev = prev) ∧
    (handleLog parse getBlock account m gt log prev ≠ prev →
      ∃ p, parse log = some p ∧ strLower p.player = strLower account) := by
  constructor
  · intro p hp hne
    unfold handleLog
    rw [hp]
    exact if_neg hne
  · exact handleLog_changes_account parse getBlock account m gt log prev

/-- C5 witness: a log decoding to the player 0xP is dropped for the connected
account 0xme, leaving the empty list unchanged. -/
theorem C5_account_filter_witness :
    handleLog constParse constGetBlock "0xme" true GameType.dice rawLogA [] = [] :=
  (C5_account_filter constParse constGetBlock "0xme" true GameType.dice
    rawLogA []).1 ⟨"0xP", 1, 0, 0, true⟩ rfl (by decide)

/-- C6 counterexample: at latest block 2000 the first two getLogs ranges are
[1550, 2000] and [1100, 1550]; both contain block 1550, so the query ranges are
not pairwise disjoint. -/
theorem C6_disjoint_counterexample :
    ¬ (queryRanges 2000).Pairwise (fun r s => r.2 < s.1 ∨ s.2 < r.1) := by decide

/-- C6 amended: for every latest block L ≥ 1, every getLogs query range lies
within the window from startBlockOf L to L; consecutive ranges overlap in
exactly their shared boundary block (the toBlock of chunk i+1 equals the
fromBlock of chunk i) while ranges two or more indices apart are disjoint;
every non-final range satisfies toBlock minus fromBlock = 450, the final range
has its fromBlock clamped to the window start and spans at most 450; and the
ranges jointly cover the whole window. -/
theorem C6_chunking_amended (L : Int) (hL : 1 ≤ L) :
    (∀ i : Nat, i < chunksNeeded L →
      startBlockOf L ≤ (chunkRange L i).1 ∧
      (chunkRange L i).1 ≤ (chunkRange L i).2 ∧ (chunkRange L i).2 ≤ L) ∧
    (∀ i : Nat, i + 1 < chunksNeeded L →
      (chunkRange L (i + 1)).2 = (chunkRange L i).1 ∧
      (chunkRange L i).2 - (chunkRange L i).1 = 450) ∧
    (∀ i j : Nat, i + 1 < j → j < chunksNeeded L →
      (chunkRange L j).2 < (chunkRange L i).1) ∧
    (chunksNeeded L ≠ 0 →
      (chunkRange L (chunksNeeded L - 1)).1 = startBlockOf L ∧
      (chunkRange L (chunksNeeded L - 1)).2 -
        (chunkRange L (chunksNeeded L - 1)).1 ≤ 450) ∧
    (∀ b : Int, startBlockOf L ≤ b → b ≤ L →
      ∃ i : Nat, i < chunksNeeded L ∧
        (chunkRange L i).1 ≤ b ∧ b ≤ (chunkRange L i).2) := by
  refine ⟨?_, ?_, ?_, ?_, ?_⟩
  · intro i hi
    simp only [chunkRange, chunksNeeded, startBlockOf, MAX_CHUNK_SIZE,
      TOTAL_BLOCKS_TO_CHECK, Int.toNat_ofNat] at hi ⊢
    omega
  · intro i hi
    simp only [chunkRange, chunksNeeded, startBlockOf, MAX_CHUNK_SIZE,
      TOTAL_BLOCKS_TO_CHECK, Int.toNat_ofNat] at hi ⊢
    omega
  · intro i j hij hj
    simp only [chunkRange, chunksNeeded, startBlockOf, MAX_CHUNK_SIZE,
      TOTAL_BLOCKS_TO_CHECK, Int.toNat_ofNat] at hj ⊢
    omega
  · intro hk
    simp only [chunkRange, chunksNeeded, startBlockOf, MAX_CHUNK_SIZE,
      TOTAL_BLOCKS_TO_CHECK, Int.toNat_ofNat] at hk ⊢
    omega
  · intro b hSb hbL
    refine ⟨min ((L - b).toNat / 450) (chunksNeeded L - 1), ?_, ?_, ?_⟩ <;>
      simp only [chunkRange, chunksNeeded, startBlockOf, MAX_CHUNK_SIZE,
        TOTAL_BLOCKS_TO_CHECK, Int.toNat_ofNat] at hSb ⊢ <;>
      omega

/-- C6 witness: the coverage part at latest block 2000 yields a chunk range
containing block 1700. -/
theorem C6_chunking_amended_witness :
    ∃ i : Nat, i < chunksNeeded 2000 ∧
      (chunkRange 2000 i).1 ≤ 1700 ∧ 1700 ≤ (chunkRange 2000 i).2 :=
  (C6_chunking_amended 2000 (by norm_num)).2.2.2.2 1700 (by decide) (by norm_num)

/-- C7: replacing the getLogs oracle so that every failing chunk instead
returns no logs leaves the fetch result unchanged, so chunk failures are
silently skipped while the remaining chunks are still scanned; a log whose
decode fails is dropped while the remaining logs are still processed; and a
failing joined fetch records the generic failure message, the only error
message the effect ever sets. -/
theorem C7_error_handling :
    (∀ g gr : Int × Int → Except Unit (List RawLog),
      ∀ parse getBlock m L gt,
      (∀ r : Int × Int, gr r = g r ∨ (g r = Except.error () ∧ gr r = Except.ok [])) →
      fetchEventsForContract g parse getBlock m L gt =
        fetchEventsForContract gr parse getBlock m L gt) ∧
    (∀ parse getBlock gt (l1 l2 : List RawLog) (x : RawLog),
      decodeLog parse getBlock gt x = none →
      parseAllLogs parse getBlock gt (l1 ++ x :: l2) =
        parseAllLogs parse getBlock gt (l1 ++ l2)) ∧
    (∀ m : Bool, (m, StateUpdate.setError (some failMsg)) ∈
      historicalEffectUpdates m (Except.error ())) ∧
    (∀ (m b : Bool) res (s : String),
      (b, StateUpdate.setError (some s)) ∈ historicalEffectUpdates m res →
      s = failMsg) := by
  refine ⟨?_, ?_, ?_, ?_⟩
  · intro g gr parse getBlock m L gt h
    have hlogs : allLogsOf g m L = allLogsOf gr m L := by
      unfold allLogsOf
      cases m with
      | false => rfl
      | true =>
        rw [if_pos rfl, if_pos rfl]
        congr 1
        apply List.map_congr_left
        intro i _
        rcases h (chunkRange L i) with heq | ⟨he, ho⟩
        · rw [heq]
        · rw [he, ho]
    unfold fetchEventsForContract
    rw [hlogs]
  · intro parse getBlock gt l1 l2 x h
    simp [parseAllLogs, List.filterMap_append, List.filterMap_cons, h]
  · intro m
    simp [historicalEffectUpdates]
  · intro m b res s h
    cases res with
    | ok pr =>
      obtain ⟨d, c⟩ := pr
      cases m <;> simp [historicalEffectUpdates] at h
    | error e =>
      simp [historicalEffectUpdates] at h
      tauto

/-- C7 witness: the per-log part applied to the log rawLogBad, whose decode
fails, sitting between two processed copies of rawLogA. -/
theorem C7_error_handling_witness :
    parseAllLogs failingParse constGetBlock GameType.dice
        ([rawLogA] ++ rawLogBad :: [rawLogA]) =
      parseAllLogs failingParse constGetBlock GameType.dice ([rawLogA] ++ [rawLogA]) :=
  C7_error_handling.2.1 failingParse constGetBlock GameType.dice
    [rawLogA] [rawLogA] rawLogBad (by decide)

/-- C8 counterexample: when the component unmounts while the joined fetch is in
flight, the finally clause still runs setLoading false although isMounted is
already false, so a state update does occur after teardown. -/
theorem C8_unmounted_update_counterexample :
    (false, StateUpdate.setLoading false) ∈
      historicalEffectUpdates false (Except.ok ([], [])) := by
  simp [historicalEffectUpdates]

/-- C8 amended: the liveness flag guards every update of the events list, so
the events setter never runs after teardown in either the historical path or
the subscription handler; the loading and error setters of the historical path
are not guarded by the flag and can run after teardown. -/
theorem C8_events_setter_guarded :
    (∀ (m : Bool) res (l : List GameEvent),
      (false, StateUpdate.setEvents l) ∉ historicalEffectUpdates m res) ∧
    (∀ parse getBlock account gt log prev,
      handleLog parse getBlock account false gt log prev = prev) := by
  constructor
  · intro m res l h
    cases res with
    | ok pr =>
      obtain ⟨d, c⟩ := pr
      cases m <;> simp [historicalEffectUpdates] at h
    | error e => simp [historicalEffectUpdates] at h
  · intro parse getBlock account gt log prev
    unfold handleLog
    split
    · rfl
    · split
      · split
        · rfl
        · simp
      · rfl

/-- C9: when the wallet is disconnected or the account is absent, the
historical effect immediately sets events to the empty list and loading to
false and starts no fetch, and the subscription effect opens no subscription. -/
theorem C9_disconnected_reset (isConnected : Bool) (acc : Option String)
    (h : isConnected = false ∨ accountMissing acc = true) :
    historicalEffectInit isConnected acc =
      ([StateUpdate.setEvents [], StateUpdate.setLoading false], false) ∧
    subscriptionOpens isConnected acc = false := by
  have hg : effectGuardSkips isConnected acc = true := by
    rcases h with h | h <;> simp [effectGuardSkips, h]
  constructor
  · unfold historicalEffectInit
    rw [if_pos hg]
  · unfold subscriptionOpens
    rw [hg]
    rfl

/-- C9 witness: the disconnected case with no account. -/
theorem C9_disconnected_reset_witness :
    historicalEffectInit false none =
      ([StateUpdate.setEvents [], StateUpdate.setLoading false], false) ∧
    subscriptionOpens false none = false :=
  C9_disconnected_reset false none (Or.inl rfl)

/-- C10: the historical scan applies no account filter: every successfully
decoded log of the accumulated scan ends up in the per-contract result list,
whatever its player address, and the merged initial list can hold records of
distinct players, so it can show other players' bets; only the subscription
handler restricts additions to the connected account. -/
theorem C10_no_account_filter_on_history :
    (∀ g parse getBlock m L gt (log : RawLog) (ev : GameEvent),
      log ∈ allLogsOf g m L → decodeLog parse getBlock gt log = some ev →
      ev ∈ fetchEventsForContract g parse getBlock m L gt) ∧
    (∃ d c : List GameEvent, ∃ e1 e2 : GameEvent,
      e1 ∈ combineEvents d c ∧ e2 ∈ combineEvents d c ∧ e1.player ≠ e2.player) ∧
    (∀ parse getBlock account m gt log prev,
      handleLog parse getBlock account m gt log prev ≠ prev →
      ∃ p, parse log = some p ∧ strLower p.player = strLower account) := by
  refine ⟨?_, ?_, ?_⟩
  · intro g parse getBlock m L gt log ev hmem hdec
    unfold fetchEventsForContract parseAllLogs
    exact List.mem_filterMap.mpr ⟨log, hmem, hdec⟩
  · have hlen : (sortByBlockDesc ([evA] ++ [evB])).length ≤ MAX_RESULTS := by
      unfold sortByBlockDesc
      rw [List.length_mergeSort]
      decide
    have hperm := sortByBlockDesc_perm ([evA] ++ [evB])
    have hc : combineEvents [evA] [evB] = sortByBlockDesc ([evA] ++ [evB]) := by
      unfold combineEvents
      exact List.take_of_length_le hlen
    refine ⟨[evA], [evB], evA, evB, ?_, ?_, by decide⟩
    · rw [hc]
      exact hperm.mem_iff.mpr (by decide)
    · rw [hc]
      exact hperm.mem_iff.mpr (by decide)
  · intro parse getBlock account m gt log prev
    exact handleLog_changes_account parse getBlock account m gt log prev

/-- C10 witness: the inclusion part at the concrete boundary log of dupChain,
decoded to the record dupEv of player 0xp, with no constraint on any account. -/
theorem C10_no_account_filter_on_history_witness :
    dupEv ∈ fetchEventsForContract (getLogsSpec dupChain) constParse constGetBlock
      true 2000 GameType.dice :=
  C10_no_account_filter_on_history.1 (getLogsSpec dupChain) constParse constGetBlock
    true 2000 GameType.dice ⟨1550, some "0xdup"⟩ dupEv (by decide) (by decide)

end Broflip
